import Mathlib

/-!
BigFix: chunk store and unsigned addition.

A shallow embedding of `include/BigFix/BigFix.hpp` and `src/BigFix.cpp`.

* A chunk (`UnderlyingT`, `std::uint64_t`) is a natural number; every wrapping
  operation carries an explicit `% 2 ^ 64`.
* The tagged union `Buffer` is an inductive type with one constructor per
  layout; the tag bits of `m_state` are the constructor, the sign bit is the
  field `negative` of `Chunks`.
* Memory reached through `get_chunk_ptr` is a list of words. A read or a write
  outside that list (undefined behaviour in the source) makes the operation
  return `none`.
-/

namespace BigFixModel

/-- The word type of the source, `std::uint64_t`, as a natural number. The
definitions below write `Nat` for it. -/
abbrev UnderlyingT := Nat

/-- The layout tag `Chunks::State`. -/
inductive State where
  | SmallInteger
  | BigInteger
  | DynamicSized
  deriving DecidableEq, Repr

/-- The union `Buffer`: `SBO_1I_2F` (two fraction words, one integer word),
`SBO_2I_1F` (one fraction word, two integer words) or `Dynamic` (a heap buffer
and its two recorded counts). -/
inductive Buffer where
  | small_integer (fraction0 fraction1 integer : Nat)
  | big_integer (fraction integer0 integer1 : Nat)
  | dynamic (m_buffer : List Nat) (m_integer_chunk_count m_fraction_chunk_count : Nat)
  deriving DecidableEq, Repr

/-- The store `Chunks`: the union payload and the sign bit of `m_state`. -/
structure Chunks where
  m_data : Buffer
  negative : Bool
  deriving DecidableEq, Repr

/-- The number: `BigFix` owns one `Chunks`. -/
structure BigFix where
  m_chunks : Chunks
  deriving DecidableEq, Repr

/-! ## Carry primitive -/

/-- The function `add_carry` on the GCC/clang path, `__builtin_addcll`: the two wrapped
additions and the disjunction of their carries. Returns `(sum, carry_out)`. -/
def add_carry (left right carry_in : Nat) : Nat × Nat :=
  let sum := (left + right) % 2 ^ 64
  let carry1 := decide (sum < left)
  let sum_with_carry := (sum + carry_in) % 2 ^ 64
  let carry2 := decide (sum_with_carry < sum)
  (sum_with_carry, if carry1 || carry2 then 1 else 0)

/-! ## Chunk store queries -/

/-- The member `Chunks::get_state_type`. -/
def get_state_type (c : Chunks) : State :=
  match c.m_data with
  | .small_integer _ _ _ => .SmallInteger
  | .big_integer _ _ _ => .BigInteger
  | .dynamic _ _ _ => .DynamicSized

/-- The member `Chunks::is_negative`. -/
def is_negative (c : Chunks) : Bool := c.negative

/-- The member `Chunks::get_total_integer_chunk_count`. -/
def get_total_integer_chunk_count (c : Chunks) : Nat :=
  match c.m_data with
  | .small_integer _ _ _ => 1
  | .big_integer _ _ _ => 2
  | .dynamic _ ic _ => ic

/-- The member `Chunks::get_total_fractional_chunk_count`. -/
def get_total_fractional_chunk_count (c : Chunks) : Nat :=
  match c.m_data with
  | .small_integer _ _ _ => 2
  | .big_integer _ _ _ => 1
  | .dynamic _ _ fc => fc

/-- The member `Chunks::get_chunk_ptr`: the words the returned pointer addresses, in
memory order. The inline layouts are three words long. -/
def get_chunk_ptr (c : Chunks) : List Nat :=
  match c.m_data with
  | .small_integer f0 f1 i => [f0, f1, i]
  | .big_integer f i0 i1 => [f, i0, i1]
  | .dynamic b _ _ => b

/-- The loop of the `DynamicSized` case of `get_used_integer_chunk_count`. The
third argument is `i + 1` for the loop variable `i`, which starts at
`m_integer_chunk_count - 1` and is decremented while
`i >= m_fraction_chunk_count`. -/
def used_integer_scan (buf : List Nat) (fc : Nat) : Nat → Nat
  | 0 => 0
  | i + 1 =>
    if i < fc then 0
    else if buf.getD (fc + i) 0 ≠ 0 then i + 1
    else used_integer_scan buf fc i

/-- The member `Chunks::get_used_integer_chunk_count`. -/
def get_used_integer_chunk_count (c : Chunks) : Nat :=
  match c.m_data with
  | .small_integer _ _ i => if i ≠ 0 then 1 else 0
  | .big_integer _ i0 i1 => if i1 ≠ 0 then 2 else if i0 ≠ 0 then 1 else 0
  | .dynamic b ic fc => used_integer_scan b fc ic

/-- The loop of the `DynamicSized` case of `get_used_fraction_chunk_count`,
entered at index `i` with `n` iterations left. Running off the end reaches
`std::unreachable()`, which is `none` here. -/
def used_fraction_scan (buf : List Nat) (fc : Nat) : Nat → Nat → Option Nat
  | 0, _ => none
  | n + 1, i =>
    if buf.getD i 0 ≠ 0 then some (fc - i)
    else used_fraction_scan buf fc n (i + 1)

/-- The member `Chunks::get_used_fraction_chunk_count`. -/
def get_used_fraction_chunk_count (c : Chunks) : Option Nat :=
  match c.m_data with
  | .small_integer f0 f1 _ => some (if f1 ≠ 0 then 2 else if f0 ≠ 0 then 1 else 0)
  | .big_integer f _ _ => some (if f ≠ 0 then 1 else 0)
  | .dynamic b _ fc => used_fraction_scan b fc fc 0

/-- A read `ptr[i]` through `get_chunk_ptr`; `none` outside the storage. -/
def read_chunk (c : Chunks) (i : Nat) : Option Nat :=
  (get_chunk_ptr c)[i]?

/-- A write `ptr[i] = v` through `get_chunk_ptr`; `none` outside the storage.
The layout, the recorded counts and the sign are untouched. -/
def write_chunk (c : Chunks) (i : Nat) (v : Nat) : Option Chunks :=
  match c.m_data with
  | .small_integer f0 f1 n =>
    match i with
    | 0 => some ⟨.small_integer v f1 n, c.negative⟩
    | 1 => some ⟨.small_integer f0 v n, c.negative⟩
    | 2 => some ⟨.small_integer f0 f1 v, c.negative⟩
    | _ => none
  | .big_integer f i0 i1 =>
    match i with
    | 0 => some ⟨.big_integer v i0 i1, c.negative⟩
    | 1 => some ⟨.big_integer f v i1, c.negative⟩
    | 2 => some ⟨.big_integer f i0 v, c.negative⟩
    | _ => none
  | .dynamic b ic fc =>
    if i < b.length then some ⟨.dynamic (b.set i v) ic fc, c.negative⟩ else none

/-! ## Construction, move, copy -/

/-- The constructor `Chunks(std::size_t integers, std::size_t fractions)`. The
array length `integers + fractions` of `new UnderlyingT[integers + fractions]{}`
is computed in `std::size_t` and wraps at `2 ^ 64`, while the two counts are
recorded as given. The allocation is taken to succeed: a `new` that throws ends
the call and builds no store. -/
def Chunks_counts (integers fractions : Nat) : Chunks :=
  if integers < 2 ∧ fractions < 3 then ⟨.small_integer 0 0 0, false⟩
  else if integers < 3 ∧ fractions < 2 then ⟨.big_integer 0 0 0, false⟩
  else
    ⟨.dynamic (List.replicate ((integers + fractions) % 2 ^ 64) 0) integers fractions, false⟩

/-- The move constructor and move assignment of `Chunks` (for distinct
objects): the pair of the destination and of the source left behind. -/
def Chunks_move (other : Chunks) : Chunks × Chunks :=
  (⟨other.m_data, other.negative⟩, ⟨.small_integer 0 0 0, false⟩)

/-- The copy constructor and copy assignment of `Chunks`. The `DynamicSized`
case copies the first `ints + frac` words of the source buffer, where the two
counts are the used counts of the source, and records those counts. -/
def Chunks_copy (other : Chunks) : Option Chunks :=
  match other.m_data with
  | .small_integer f0 f1 i => some ⟨.small_integer f0 f1 i, other.negative⟩
  | .big_integer f i0 i1 => some ⟨.big_integer f i0 i1, other.negative⟩
  | .dynamic b _ _ =>
    match get_used_fraction_chunk_count other with
    | none => none
    | some frac =>
      let ints := get_used_integer_chunk_count other
      if ints + frac ≤ b.length then
        some ⟨.dynamic (b.take (ints + frac)) ints frac, other.negative⟩
      else none

/-- The constructor `BigFix(integer, fractional, negative)`. -/
def BigFix_new (integer fractional : Nat) (negative : Bool) : BigFix :=
  ⟨⟨.small_integer 0 fractional integer, negative⟩⟩

/-- The implicit move of a `BigFix`: `(w, v)` after `w = std::move(v)`. -/
def BigFix_move (v : BigFix) : BigFix × BigFix :=
  (⟨(Chunks_move v.m_chunks).1⟩, ⟨(Chunks_move v.m_chunks).2⟩)

/-- The implicit copy of a `BigFix`. -/
def BigFix_copy (v : BigFix) : Option BigFix :=
  (Chunks_copy v.m_chunks).map BigFix.mk

/-! ## Growth -/

/-- The call `std::memcpy(dst.get_chunk_ptr() + offset, src, n words)`, one
word at a time from index `j`; `none` when a word is read outside `src` or
written outside the storage of `dst`. -/
def memcpy_chunks (src : List Nat) (offset : Nat) : Nat → Nat → Chunks → Option Chunks
  | 0, _, dst => some dst
  | n + 1, j, dst =>
    match src[j]? with
    | none => none
    | some w =>
      match write_chunk dst (j + offset) w with
      | none => none
      | some dst1 => memcpy_chunks src offset n (j + 1) dst1

/-- The member `Chunks::increase_size_to`. The subtraction `fraction_chunks - total_frac`
is on `std::size_t`; when it wraps, the destination pointer leaves the new
storage and the result is `none`. The store that is moved into `*this` is
`new_chunks`, sign bit included. -/
def increase_size_to (c : Chunks) (integer_chunks fraction_chunks : Nat) : Option Chunks :=
  let new_chunks := Chunks_counts integer_chunks fraction_chunks
  let total_frac := get_total_fractional_chunk_count c
  let total_int := get_total_integer_chunk_count c
  if fraction_chunks < total_frac then none
  else
    let offset := fraction_chunks - total_frac
    match memcpy_chunks (get_chunk_ptr c) offset (total_frac + total_int) 0 new_chunks with
    | none => none
    | some filled => some (Chunks_move filled).1

/-- The member `Chunks::ensure_capacity`. -/
def ensure_capacity (c : Chunks) (integer_chunks fraction_chunks : Nat) : Option Chunks :=
  match c.m_data with
  | .small_integer _ _ _ =>
    if integer_chunks ≤ 1 ∧ fraction_chunks ≤ 2 then some c
    else increase_size_to c integer_chunks fraction_chunks
  | .big_integer _ _ _ =>
    if integer_chunks ≤ 2 ∧ fraction_chunks ≤ 1 then some c
    else increase_size_to c integer_chunks fraction_chunks
  | .dynamic _ ic fc =>
    if ic ≥ integer_chunks ∧ fc ≥ fraction_chunks then some c
    else increase_size_to c integer_chunks fraction_chunks

/-! ## Unsigned addition -/

/-- The first loop of `add_eq_unsigned`: `n` iterations left, loop variable
`i`; the state is the store of `*this` and the carry. -/
def add_loop (other_ptr : List Nat) (offset : Nat) :
    Nat → Nat → Chunks → Nat → Option (Chunks × Nat)
  | 0, _, me, carry => some (me, carry)
  | n + 1, i, me, carry =>
    match read_chunk me (i + offset), other_ptr[i]? with
    | some a, some b =>
      match write_chunk me (i + offset) (add_carry a b carry).1 with
      | none => none
      | some me1 => add_loop other_ptr offset n (i + 1) me1 (add_carry a b carry).2
    | _, _ => none

/-- The second loop of `add_eq_unsigned`: `n` is the distance of the loop
variable `i` to its bound `my_frac_current + my_int_current`; the loop also
stops when the carry is zero. -/
def carry_loop : Nat → Nat → Chunks → Nat → Option (Chunks × Nat)
  | 0, _, me, carry => some (me, carry)
  | n + 1, i, me, carry =>
    if carry = 0 then some (me, carry)
    else
      match read_chunk me i with
      | none => none
      | some a =>
        match write_chunk me i (add_carry a 0 carry).1 with
        | none => none
        | some me1 => carry_loop n (i + 1) me1 (add_carry a 0 carry).2

/-- The member `BigFix::add_eq_unsigned`: the new value of `*this`, for `other` a distinct
object. The subtraction `my_frac_current - other_frac_total` is on
`std::size_t`; when it wraps, the accesses leave the storage and the result is
`none`. -/
def add_eq_unsigned (self other : BigFix) : Option BigFix :=
  let my_int_used := get_used_integer_chunk_count self.m_chunks
  let other_int_used := get_used_integer_chunk_count other.m_chunks
  let max_int := max my_int_used other_int_used
  let my_frac_total := get_total_fractional_chunk_count self.m_chunks
  let other_frac_total := get_total_fractional_chunk_count other.m_chunks
  let max_frac := max my_frac_total other_frac_total
  match ensure_capacity self.m_chunks max_int max_frac with
  | none => none
  | some grown =>
    let other_ptr := get_chunk_ptr other.m_chunks
    let my_frac_current := get_total_fractional_chunk_count grown
    if my_frac_current < other_frac_total then none
    else
      let offset := my_frac_current - other_frac_total
      let up_to_other := other_frac_total + other_int_used
      match add_loop other_ptr offset up_to_other 0 grown 0 with
      | none => none
      | some (added, carry1) =>
        let my_int_current := get_total_integer_chunk_count added
        match carry_loop (my_frac_current + my_int_current - (up_to_other + offset))
            (up_to_other + offset) added carry1 with
        | none => none
        | some (rippled, carry) =>
          if carry ≠ 0 then
            match increase_size_to rippled (max_int + 1) max_frac with
            | none => none
            | some bigger =>
              (write_chunk bigger (get_total_fractional_chunk_count bigger + max_int) carry).map
                BigFix.mk
          else some ⟨rippled⟩

/-- The loop of `playground/main.cpp`: `k` calls `num1.add_eq_unsigned(num2)`. -/
def accumulate (num2 : BigFix) : Nat → BigFix → Option BigFix
  | 0, num1 => some num1
  | k + 1, num1 =>
    match add_eq_unsigned num1 num2 with
    | none => none
    | some next => accumulate num2 k next

/-! ## Formatting -/

/-- One lowercase hexadecimal digit. -/
def hex_digit (d : Nat) : Char :=
  match d with
  | 0 => '0' | 1 => '1' | 2 => '2' | 3 => '3'
  | 4 => '4' | 5 => '5' | 6 => '6' | 7 => '7'
  | 8 => '8' | 9 => '9' | 10 => 'a' | 11 => 'b'
  | 12 => 'c' | 13 => 'd' | 14 => 'e' | _ => 'f'

/-- The `w` low hexadecimal digits of `n`, most significant first. -/
def hex_digits : Nat → Nat → List Char
  | 0, _ => []
  | w + 1, n => hex_digits w (n / 16) ++ [hex_digit (n % 16)]

/-- The call `std::format` with the pattern `:016x` on a 64-bit word. -/
def format_016x (chunk : Nat) : List Char :=
  hex_digits 16 chunk

/-- The call `std::format` with the pattern `:x` on a 64-bit word: no leading
zeros, and the single digit `0` for zero. -/
def format_x (chunk : Nat) : List Char :=
  match (hex_digits 16 chunk).dropWhile (fun ch => ch == '0') with
  | [] => ['0']
  | ds => ds

/-- The loop `while (!chunk_str.empty() && chunk_str.back() == '0') pop_back()`. -/
def strip_trailing_zeros (chunk_str : List Char) : List Char :=
  (chunk_str.reverse.dropWhile (fun ch => ch == '0')).reverse

/-- The integer loop of `to_string`: the third argument is `i + 1` for the
loop variable `i`, which runs from `int_count - 1` down to `0`. -/
def format_integer_part (ptr : List Nat) (frac_count : Nat) :
    Nat → Bool → List Char
  | 0, _ => []
  | i + 1, printed_nonzero =>
    let chunk := ptr.getD (frac_count + i) 0
    if chunk ≠ 0 ∨ printed_nonzero = true ∨ i = 0 then
      if printed_nonzero then format_016x chunk ++ format_integer_part ptr frac_count i true
      else format_x chunk ++ format_integer_part ptr frac_count i true
    else format_integer_part ptr frac_count i printed_nonzero

/-- The search loop of `to_string` for `last_nonzero_frac`: the second
argument is `i + 1` for the loop variable `i`, which runs from
`frac_count - 1` down to `0`; `none` is the initial value `-1`. -/
def find_last_nonzero_frac (ptr : List Nat) : Nat → Option Nat
  | 0 => none
  | i + 1 => if ptr.getD i 0 ≠ 0 then some i else find_last_nonzero_frac ptr i

/-- The fraction loop of `to_string`: the third argument is `i + 1` for the
loop variable `i`, which runs from `frac_count - 1` down to
`last_nonzero_frac`. -/
def format_fraction_part (ptr : List Nat) (last_nonzero_frac : Nat) :
    Nat → List Char
  | 0 => []
  | i + 1 =>
    if i < last_nonzero_frac then []
    else if i = last_nonzero_frac then
      strip_trailing_zeros (format_016x (ptr.getD i 0))
        ++ format_fraction_part ptr last_nonzero_frac i
    else format_016x (ptr.getD i 0) ++ format_fraction_part ptr last_nonzero_frac i

/-- The function `to_string(const BigFix&)`. -/
def to_string (value : BigFix) : String :=
  let sign := if is_negative value.m_chunks then ['-'] else []
  let ptr := get_chunk_ptr value.m_chunks
  let frac_count := get_total_fractional_chunk_count value.m_chunks
  let int_count := get_total_integer_chunk_count value.m_chunks
  let ints := format_integer_part ptr frac_count int_count false
  let fracs :=
    match find_last_nonzero_frac ptr frac_count with
    | none => []
    | some last_nonzero_frac => '.' :: format_fraction_part ptr last_nonzero_frac frac_count
  String.mk (sign ++ ints ++ fracs)

/-! ## Magnitude -/

/-- The sum over buffer indices `k`, starting at `k`, of `chunk[k] * 2 ^ (64 * k)`. -/
def scaled_from : Nat → List Nat → Nat
  | _, [] => 0
  | k, w :: ws => w * 2 ^ (64 * k) + scaled_from (k + 1) ws

/-- The magnitude scaled by `2 ^ (64 * total fraction chunks)`. -/
def scaled_magnitude (v : BigFix) : Nat :=
  scaled_from 0 (get_chunk_ptr v.m_chunks)

/-- The magnitude of a value: the sum over buffer indices `k` of
`chunk[k] * 2 ^ (64 * (k - total fraction chunks))`. -/
def magnitude (v : BigFix) : ℚ :=
  (scaled_magnitude v : ℚ) / 2 ^ (64 * get_total_fractional_chunk_count v.m_chunks)


/-! ## Reachable values -/

/-- The values the public interface produces: the constructor on two 64-bit
words and a sign, and `a.add_eq_unsigned(b)` on two such values (distinct
objects) whenever the call stays inside its storage. -/
inductive Reachable : BigFix → Prop where
  | construct (integer fractional : Nat) (negative : Bool) :
      integer < 2 ^ 64 → fractional < 2 ^ 64 →
      Reachable (BigFix_new integer fractional negative)
  | add (a b r : BigFix) :
      Reachable a → Reachable b → add_eq_unsigned a b = some r → Reachable r

/-- The two shapes of a reachable value: the Small layout, or the Dynamic
layout with two fraction and two integer chunks in a four-word buffer; every
chunk is a 64-bit word. -/
def ReachableShape (v : BigFix) : Prop :=
  (∃ f0 f1 i neg, f0 < 2 ^ 64 ∧ f1 < 2 ^ 64 ∧ i < 2 ^ 64 ∧
      v = ⟨⟨.small_integer f0 f1 i, neg⟩⟩) ∨
  (∃ f0 f1 i0 i1 neg, f0 < 2 ^ 64 ∧ f1 < 2 ^ 64 ∧ i0 < 2 ^ 64 ∧ i1 < 2 ^ 64 ∧
      v = ⟨⟨.dynamic [f0, f1, i0, i1] 2 2, neg⟩⟩)

/-! ## Auxiliary definitions for the proofs -/

/-- The ripple step on the first integer word `x` of `*this` when the operand
is in the Small layout with integer word `j`: the first loop adds `j` when it
counts as used; otherwise the second loop adds a pending carry alone. -/
def ripple_integer (x j carry : Nat) : Nat × Nat :=
  if j ≠ 0 then add_carry x j carry
  else if carry = 0 then (x, 0) else add_carry x 0 carry

/-- The step of the second loop on one further word. -/
def ripple_carry (x carry : Nat) : Nat × Nat :=
  if carry = 0 then (x, 0) else add_carry x 0 carry

/-- The value `num1` of `playground/main.cpp`. -/
def num1 : BigFix := BigFix_new 3 0xFFFFFFFFFFFFFFFF false

/-- The value `num2` of `playground/main.cpp`. -/
def num2 : BigFix := BigFix_new 3 0x1111111111111111 false

/-- The wrapped difference `a - b` of two 64-bit words. -/
def wrapping_sub (a b : Nat) : Nat :=
  (a + (2 ^ 64 - b % 2 ^ 64)) % 2 ^ 64

/-- The function `sub_borrow` on the GCC/clang path,
`out = __builtin_subcll(left, right, borrow_in, &out)`: the builtin stores its
borrow in the local `out`, and the assignment then stores the difference there.
The fourth argument is the word `*borrow_out` before the call; the result is
the returned word and `*borrow_out` after the call. -/
def sub_borrow (left right borrow_in borrow_out : Nat) : Nat × Nat :=
  let diff := wrapping_sub left right
  let diff_with_borrow := wrapping_sub diff borrow_in
  (diff_with_borrow, borrow_out)

/-- The index of the first non-zero word of a chunk sequence whose first word
has index `j`. -/
def first_nonzero_index : List Nat → Nat → Option Nat
  | [], _ => none
  | w :: ws, j => if w ≠ 0 then some j else first_nonzero_index ws (j + 1)

/-- The fraction region of a store: the first `total fraction count` words. -/
def fraction_region (c : Chunks) : List Nat :=
  (get_chunk_ptr c).take (get_total_fractional_chunk_count c)

/-- The linear-scan rule for the used fraction chunk count, in the words of
the specification: walk forward from index `0` to the first non-zero chunk of
the fraction region and return the count of chunks from that point to the end
of the region. -/
def used_fraction_linear_rule (c : Chunks) : Option Nat :=
  (first_nonzero_index (fraction_region c) 0).map
    (fun j => get_total_fractional_chunk_count c - j)

/-- The test of `ensure_capacity` that the current layout accommodates the
request. -/
def capacity_covers (c : Chunks) (integer_chunks fraction_chunks : Nat) : Prop :=
  match c.m_data with
  | .small_integer _ _ _ => integer_chunks ≤ 1 ∧ fraction_chunks ≤ 2
  | .big_integer _ _ _ => integer_chunks ≤ 2 ∧ fraction_chunks ≤ 1
  | .dynamic _ ic fc => ic ≥ integer_chunks ∧ fc ≥ fraction_chunks

/-- A store is well formed when a Dynamic buffer has exactly
`integer count + fraction count` chunks. -/
def WellFormed (c : Chunks) : Prop :=
  (get_chunk_ptr c).length
    = get_total_fractional_chunk_count c + get_total_integer_chunk_count c

/-- Two stores have the same layout and the same recorded counts. -/
def same_layout (c d : Chunks) : Prop :=
  match c.m_data, d.m_data with
  | .small_integer _ _ _, .small_integer _ _ _ => True
  | .big_integer _ _ _, .big_integer _ _ _ => True
  | .dynamic _ ic fc, .dynamic _ jc gc => ic = jc ∧ fc = gc
  | _, _ => False

/-! ## Lemmas on the carry primitive -/

theorem two_pow_64 : (2 : Nat) ^ 64 = 18446744073709551616 := by norm_num

theorem add_carry_eq (a b c : Nat) (ha : a < 2 ^ 64) (hb : b < 2 ^ 64) (hc : c ≤ 1) :
    add_carry a b c = ((a + b + c) % 2 ^ 64, (a + b + c) / 2 ^ 64) := by
  unfold add_carry
  simp only [Prod.mk.injEq, two_pow_64, Bool.or_eq_true, decide_eq_true_eq] at *
  constructor
  · omega
  · split_ifs <;> omega

theorem add_carry_fst_lt (a b c : Nat) : (add_carry a b c).1 < 2 ^ 64 := by
  unfold add_carry
  exact Nat.mod_lt _ (by norm_num)

theorem add_carry_snd_le (a b c : Nat) : (add_carry a b c).2 ≤ 1 := by
  unfold add_carry
  simp only []
  split_ifs <;> omega

theorem add_carry_zero_zero (a : Nat) (ha : a < 2 ^ 64) : add_carry a 0 0 = (a, 0) := by
  rw [add_carry_eq a 0 0 ha (by norm_num) (by norm_num)]
  simp only [two_pow_64, Prod.mk.injEq] at *
  omega

/-! ## Closed forms of `add_eq_unsigned` on the reachable shapes -/

theorem add_small_small (f0 f1 i g0 g1 j : Nat) (na nb : Bool) :
    add_eq_unsigned ⟨⟨.small_integer f0 f1 i, na⟩⟩ ⟨⟨.small_integer g0 g1 j, nb⟩⟩ =
      (let r0 := add_carry f0 g0 0
       let r1 := add_carry f1 g1 r0.2
       let r2 := ripple_integer i j r1.2
       if r2.2 = 0 then some ⟨⟨.small_integer r0.1 r1.1 r2.1, na⟩⟩
       else if i = 0 ∧ j = 0 then some ⟨⟨.small_integer r0.1 r1.1 r2.2, false⟩⟩
       else some ⟨⟨.dynamic [r0.1, r1.1, r2.1, r2.2] 2 2, false⟩⟩) := by
  by_cases hi : i = 0 <;> by_cases hj : j = 0 <;>
    by_cases h1 : (add_carry f1 g1 (add_carry f0 g0 0).2).2 = 0
  all_goals
    simp [add_eq_unsigned, get_used_integer_chunk_count, get_total_fractional_chunk_count,
      get_total_integer_chunk_count, ensure_capacity, get_chunk_ptr, add_loop, carry_loop,
      read_chunk, write_chunk, hi, hj, h1, increase_size_to, Chunks_counts, memcpy_chunks,
      Chunks_move, ripple_integer]

theorem add_small_dynamic (f0 f1 i g0 g1 g2 g3 : Nat) (na nb : Bool) :
    add_eq_unsigned ⟨⟨.small_integer f0 f1 i, na⟩⟩ ⟨⟨.dynamic [g0, g1, g2, g3] 2 2, nb⟩⟩ =
      (let r0 := add_carry f0 g0 0
       let r1 := add_carry f1 g1 r0.2
       let r2 := ripple_carry i r1.2
       if r2.2 = 0 then some ⟨⟨.small_integer r0.1 r1.1 r2.1, na⟩⟩
       else if i = 0 then some ⟨⟨.small_integer r0.1 r1.1 r2.2, false⟩⟩
       else some ⟨⟨.dynamic [r0.1, r1.1, r2.1, r2.2] 2 2, false⟩⟩) := by
  by_cases hi : i = 0 <;>
    by_cases h1 : (add_carry f1 g1 (add_carry f0 g0 0).2).2 = 0
  all_goals
    simp [add_eq_unsigned, get_used_integer_chunk_count, get_total_fractional_chunk_count,
      get_total_integer_chunk_count, ensure_capacity, get_chunk_ptr, add_loop, carry_loop,
      read_chunk, write_chunk, hi, h1, increase_size_to, Chunks_counts, memcpy_chunks,
      Chunks_move, ripple_carry, used_integer_scan]

theorem add_dynamic_small (f0 f1 f2 f3 g0 g1 j : Nat) (na nb : Bool) :
    add_eq_unsigned ⟨⟨.dynamic [f0, f1, f2, f3] 2 2, na⟩⟩ ⟨⟨.small_integer g0 g1 j, nb⟩⟩ =
      (let r0 := add_carry f0 g0 0
       let r1 := add_carry f1 g1 r0.2
       let r2 := ripple_integer f2 j r1.2
       let r3 := ripple_carry f3 r2.2
       if r3.2 = 0 then some ⟨⟨.dynamic [r0.1, r1.1, r2.1, r3.1] 2 2, na⟩⟩
       else if j = 0 then none
       else some ⟨⟨.dynamic [r0.1, r1.1, r2.1, r3.2] 2 2, false⟩⟩) := by
  by_cases hj : j = 0 <;>
    by_cases h1 : (add_carry f1 g1 (add_carry f0 g0 0).2).2 = 0 <;>
    by_cases h2 : (ripple_integer f2 j (add_carry f1 g1 (add_carry f0 g0 0).2).2).2 = 0
  all_goals
    simp [ripple_integer, hj, h1] at h2
  all_goals
    simp [add_eq_unsigned, get_used_integer_chunk_count, get_total_fractional_chunk_count,
      get_total_integer_chunk_count, ensure_capacity, get_chunk_ptr, add_loop, carry_loop,
      read_chunk, write_chunk, hj, h1, h2, increase_size_to, Chunks_counts, memcpy_chunks,
      Chunks_move, ripple_carry, ripple_integer, used_integer_scan]

theorem add_dynamic_dynamic (f0 f1 f2 f3 g0 g1 g2 g3 : Nat) (na nb : Bool) :
    add_eq_unsigned ⟨⟨.dynamic [f0, f1, f2, f3] 2 2, na⟩⟩ ⟨⟨.dynamic [g0, g1, g2, g3] 2 2, nb⟩⟩ =
      (let r0 := add_carry f0 g0 0
       let r1 := add_carry f1 g1 r0.2
       let r2 := ripple_carry f2 r1.2
       let r3 := ripple_carry f3 r2.2
       if r3.2 = 0 then some ⟨⟨.dynamic [r0.1, r1.1, r2.1, r3.1] 2 2, na⟩⟩
       else none) := by
  by_cases h1 : (add_carry f1 g1 (add_carry f0 g0 0).2).2 = 0 <;>
    by_cases h2 : (ripple_carry f2 (add_carry f1 g1 (add_carry f0 g0 0).2).2).2 = 0
  all_goals
    simp [ripple_carry, h1] at h2
  all_goals
    simp [add_eq_unsigned, get_used_integer_chunk_count, get_total_fractional_chunk_count,
      get_total_integer_chunk_count, ensure_capacity, get_chunk_ptr, add_loop, carry_loop,
      read_chunk, write_chunk, h1, h2, increase_size_to, Chunks_counts, memcpy_chunks,
      Chunks_move, ripple_carry, used_integer_scan]

theorem ripple_integer_fst_lt (x j c : Nat) (hx : x < 2 ^ 64) :
    (ripple_integer x j c).1 < 2 ^ 64 := by
  unfold ripple_integer
  split_ifs
  · exact add_carry_fst_lt _ _ _
  · exact hx
  · exact add_carry_fst_lt _ _ _

theorem ripple_integer_snd_le (x j c : Nat) : (ripple_integer x j c).2 ≤ 1 := by
  unfold ripple_integer
  split_ifs
  · exact add_carry_snd_le _ _ _
  · exact Nat.zero_le _
  · exact add_carry_snd_le _ _ _

theorem ripple_carry_fst_lt (x c : Nat) (hx : x < 2 ^ 64) : (ripple_carry x c).1 < 2 ^ 64 := by
  unfold ripple_carry
  split_ifs
  · exact hx
  · exact add_carry_fst_lt _ _ _

theorem ripple_carry_snd_le (x c : Nat) : (ripple_carry x c).2 ≤ 1 := by
  unfold ripple_carry
  split_ifs
  · exact Nat.zero_le _
  · exact add_carry_snd_le _ _ _

theorem carry_lt_word (c : Nat) (h : c ≤ 1) : c < 2 ^ 64 :=
  lt_of_le_of_lt h (by norm_num)

/-- The function `add_eq_unsigned` keeps its result inside the two reachable shapes. -/
theorem add_eq_unsigned_shape (a b r : BigFix) (ha : ReachableShape a) (hb : ReachableShape b)
    (h : add_eq_unsigned a b = some r) : ReachableShape r := by
  rcases ha with ⟨f0, f1, i, na, hf0, hf1, hi, rfl⟩ | ⟨f0, f1, f2, f3, na, hf0, hf1, hf2, hf3, rfl⟩ <;>
    rcases hb with ⟨g0, g1, j, nb, hg0, hg1, hj, rfl⟩ | ⟨g0, g1, g2, g3, nb, hg0, hg1, hg2, hg3, rfl⟩
  · rw [add_small_small] at h
    simp only [] at h
    split_ifs at h <;> cases h
    · exact Or.inl ⟨_, _, _, _, add_carry_fst_lt _ _ _, add_carry_fst_lt _ _ _,
        ripple_integer_fst_lt _ _ _ hi, rfl⟩
    · exact Or.inl ⟨_, _, _, _, add_carry_fst_lt _ _ _, add_carry_fst_lt _ _ _,
        carry_lt_word _ (ripple_integer_snd_le _ _ _), rfl⟩
    · exact Or.inr ⟨_, _, _, _, _, add_carry_fst_lt _ _ _, add_carry_fst_lt _ _ _,
        ripple_integer_fst_lt _ _ _ hi, carry_lt_word _ (ripple_integer_snd_le _ _ _), rfl⟩
  · rw [add_small_dynamic] at h
    simp only [] at h
    split_ifs at h <;> cases h
    · exact Or.inl ⟨_, _, _, _, add_carry_fst_lt _ _ _, add_carry_fst_lt _ _ _,
        ripple_carry_fst_lt _ _ hi, rfl⟩
    · exact Or.inl ⟨_, _, _, _, add_carry_fst_lt _ _ _, add_carry_fst_lt _ _ _,
        carry_lt_word _ (ripple_carry_snd_le _ _), rfl⟩
    · exact Or.inr ⟨_, _, _, _, _, add_carry_fst_lt _ _ _, add_carry_fst_lt _ _ _,
        ripple_carry_fst_lt _ _ hi, carry_lt_word _ (ripple_carry_snd_le _ _), rfl⟩
  · rw [add_dynamic_small] at h
    simp only [] at h
    split_ifs at h <;> cases h
    · exact Or.inr ⟨_, _, _, _, _, add_carry_fst_lt _ _ _, add_carry_fst_lt _ _ _,
        ripple_integer_fst_lt _ _ _ hf2, ripple_carry_fst_lt _ _ hf3, rfl⟩
    · exact Or.inr ⟨_, _, _, _, _, add_carry_fst_lt _ _ _, add_carry_fst_lt _ _ _,
        ripple_integer_fst_lt _ _ _ hf2, carry_lt_word _ (ripple_carry_snd_le _ _), rfl⟩
  · rw [add_dynamic_dynamic] at h
    simp only [] at h
    split_ifs at h
    cases h
    exact Or.inr ⟨_, _, _, _, _, add_carry_fst_lt _ _ _, add_carry_fst_lt _ _ _,
      ripple_carry_fst_lt _ _ hf2, ripple_carry_fst_lt _ _ hf3, rfl⟩

/-- Every reachable value has one of the two reachable shapes. -/
theorem reachable_shape (v : BigFix) (h : Reachable v) : ReachableShape v := by
  induction h with
  | construct integer fractional negative hi hf =>
    exact Or.inl ⟨0, fractional, integer, negative, by norm_num, hf, hi, rfl⟩
  | add a b r _ _ hr iha ihb => exact add_eq_unsigned_shape a b r iha ihb hr

/-- Adding the constructed zero to a value of a reachable shape returns the
value itself. -/
theorem add_zero_of_shape (v : BigFix) (negative : Bool) (h : ReachableShape v) :
    add_eq_unsigned v (BigFix_new 0 0 negative) = some v := by
  rcases h with ⟨f0, f1, i, na, hf0, hf1, hi, rfl⟩ | ⟨f0, f1, f2, f3, na, hf0, hf1, hf2, hf3, rfl⟩
  · unfold BigFix_new
    rw [add_small_small, add_carry_zero_zero f0 hf0]
    simp only []
    rw [add_carry_zero_zero f1 hf1]
    simp [ripple_integer]
  · unfold BigFix_new
    rw [add_dynamic_small, add_carry_zero_zero f0 hf0]
    simp only []
    rw [add_carry_zero_zero f1 hf1]
    simp [ripple_integer, ripple_carry]

/-! ## Magnitude of the constructed shapes -/

theorem magnitude_small (f0 f1 i : Nat) (neg : Bool) :
    magnitude ⟨⟨.small_integer f0 f1 i, neg⟩⟩
      = (i : ℚ) + (f1 : ℚ) / 2 ^ 64 + (f0 : ℚ) / 2 ^ 128 := by
  simp only [magnitude, scaled_magnitude, scaled_from, get_chunk_ptr,
    get_total_fractional_chunk_count]
  push_cast
  field_simp
  ring

theorem magnitude_dynamic_2_2 (f0 f1 i0 i1 : Nat) (neg : Bool) :
    magnitude ⟨⟨.dynamic [f0, f1, i0, i1] 2 2, neg⟩⟩
      = (i1 : ℚ) * 2 ^ 64 + (i0 : ℚ) + (f1 : ℚ) / 2 ^ 64 + (f0 : ℚ) / 2 ^ 128 := by
  simp only [magnitude, scaled_magnitude, scaled_from, get_chunk_ptr,
    get_total_fractional_chunk_count]
  push_cast
  field_simp
  ring

/-- The integer ripple step on 64-bit words, in closed form. -/
theorem ripple_integer_eq (x j c : Nat) (hx : x < 2 ^ 64) (hj : j < 2 ^ 64) (hc : c ≤ 1) :
    ripple_integer x j c = ((x + j + c) % 2 ^ 64, (x + j + c) / 2 ^ 64) := by
  unfold ripple_integer
  split_ifs with h1 h2
  · exact add_carry_eq x j c hx hj hc
  · simp only [two_pow_64, Prod.mk.injEq] at *
    omega
  · have h0 : j = 0 := by omega
    subst h0
    exact add_carry_eq x 0 c hx (by norm_num) hc

/-! ## Growth keeps the layout of the new store -/

theorem same_layout_refl (c : Chunks) : same_layout c c := by
  rcases c with ⟨d, n⟩
  cases d <;> simp [same_layout]

theorem same_layout_trans (a b c : Chunks) (h1 : same_layout a b) (h2 : same_layout b c) :
    same_layout a c := by
  rcases a with ⟨da, na⟩
  rcases b with ⟨db, nb⟩
  rcases c with ⟨dc, nc⟩
  cases da <;> cases db <;> cases dc <;> simp_all [same_layout]

theorem write_chunk_same_layout (c d : Chunks) (k v : Nat) (h : write_chunk c k v = some d) :
    same_layout c d := by
  rcases c with ⟨dc, nc⟩
  cases dc with
  | small_integer f0 f1 n =>
    unfold write_chunk at h
    simp only [] at h
    split at h <;> cases h
    all_goals simp [same_layout]
  | big_integer f i0 i1 =>
    unfold write_chunk at h
    simp only [] at h
    split at h <;> cases h
    all_goals simp [same_layout]
  | dynamic b ic fc =>
    unfold write_chunk at h
    simp only [] at h
    split_ifs at h
    cases h
    simp [same_layout]

theorem memcpy_chunks_same_layout (src : List Nat) (offset : Nat) :
    ∀ (n j : Nat) (dst d : Chunks), memcpy_chunks src offset n j dst = some d →
      same_layout dst d := by
  intro n
  induction n with
  | zero =>
    intro j dst d h
    simp only [memcpy_chunks] at h
    cases h
    exact same_layout_refl dst
  | succ n ih =>
    intro j dst d h
    simp only [memcpy_chunks] at h
    split at h
    · cases h
    · split at h
      · cases h
      · rename_i w _ dst1 hw
        exact same_layout_trans _ _ _ (write_chunk_same_layout _ _ _ _ hw) (ih _ _ _ h)

theorem same_layout_covers (c d : Chunks) (i f : Nat) (h : same_layout c d)
    (hc : capacity_covers c i f) : capacity_covers d i f := by
  rcases c with ⟨dc, nc⟩
  rcases d with ⟨dd, nd⟩
  cases dc <;> cases dd <;> simp_all [same_layout, capacity_covers]

theorem Chunks_counts_covers (i f : Nat) : capacity_covers (Chunks_counts i f) i f := by
  unfold Chunks_counts
  by_cases hs : i < 2 ∧ f < 3
  · simp only [hs, and_self, if_true, capacity_covers]
    omega
  · by_cases hm : i < 3 ∧ f < 2
    · simp only [hs, hm, and_self, if_true, if_false, capacity_covers]
      omega
    · simp [hs, hm, capacity_covers]

theorem capacity_covers_mono (c : Chunks) (i f i2 f2 : Nat) (hi : i2 ≤ i) (hf : f2 ≤ f)
    (h : capacity_covers c i f) : capacity_covers c i2 f2 := by
  rcases c with ⟨dc, nc⟩
  cases dc <;> simp only [capacity_covers] at * <;> omega

theorem capacity_covers_totals (c : Chunks) (i f : Nat) (h : capacity_covers c i f) :
    i ≤ get_total_integer_chunk_count c ∧ f ≤ get_total_fractional_chunk_count c := by
  rcases c with ⟨dc, nc⟩
  cases dc <;>
    simp only [capacity_covers, get_total_integer_chunk_count,
      get_total_fractional_chunk_count] at * <;> omega

theorem ensure_capacity_of_covers (c : Chunks) (i f : Nat) (h : capacity_covers c i f) :
    ensure_capacity c i f = some c := by
  rcases c with ⟨dc, nc⟩
  cases dc <;> simp only [capacity_covers] at h <;> simp [ensure_capacity, h]

theorem ensure_capacity_of_not_covers (c : Chunks) (i f : Nat) (h : ¬capacity_covers c i f) :
    ensure_capacity c i f = increase_size_to c i f := by
  rcases c with ⟨dc, nc⟩
  cases dc <;> simp only [capacity_covers] at h <;> simp only [ensure_capacity, h, if_false]

theorem increase_size_to_covers (c d : Chunks) (i f : Nat) (h : increase_size_to c i f = some d) :
    capacity_covers d i f := by
  unfold increase_size_to at h
  simp only [] at h
  split_ifs at h
  split at h
  · cases h
  · rename_i filled hm
    cases h
    have hl := memcpy_chunks_same_layout _ _ _ _ _ _ hm
    exact same_layout_covers _ _ i f hl (Chunks_counts_covers i f)

/-- After a call `ensure_capacity(i, f)` that stays inside the storage, the
total counts cover `(i, f)` and a following call with smaller or equal
arguments returns the store unchanged. -/
theorem ensure_capacity_idempotent (c d : Chunks) (i f i2 f2 : Nat) (hi : i2 ≤ i)
    (hf : f2 ≤ f) (h : ensure_capacity c i f = some d) :
    i ≤ get_total_integer_chunk_count d ∧ f ≤ get_total_fractional_chunk_count d ∧
      ensure_capacity d i2 f2 = some d := by
  have hcov : capacity_covers d i f := by
    by_cases hc : capacity_covers c i f
    · rw [ensure_capacity_of_covers c i f hc] at h
      cases h
      exact hc
    · rw [ensure_capacity_of_not_covers c i f hc] at h
      exact increase_size_to_covers c d i f h
  exact ⟨(capacity_covers_totals d i f hcov).1, (capacity_covers_totals d i f hcov).2,
    ensure_capacity_of_covers d i2 f2 (capacity_covers_mono d i f i2 f2 hi hf hcov)⟩

/-! ## Properties of the addition engine and of the store -/

/-- C1 (code defect). `BigFix(2^64-1, 0)` plus `BigFix(1, 0)` is the Dynamic value
`[0, 0, 0, 1]` of magnitude `2^64`; its used integer chunk count is reported as
`0`, so adding it into `BigFix(5, 0)` leaves `5` instead of `2^64 + 5`. -/
theorem add_eq_unsigned_drops_grown_operand :
    add_eq_unsigned (BigFix_new (2 ^ 64 - 1) 0 false) (BigFix_new 1 0 false)
        = some ⟨⟨.dynamic [0, 0, 0, 1] 2 2, false⟩⟩ ∧
      magnitude ⟨⟨.dynamic [0, 0, 0, 1] 2 2, false⟩⟩ = 2 ^ 64 ∧
      get_used_integer_chunk_count ⟨.dynamic [0, 0, 0, 1] 2 2, false⟩ = 0 ∧
      add_eq_unsigned (BigFix_new 5 0 false) ⟨⟨.dynamic [0, 0, 0, 1] 2 2, false⟩⟩
        = some (BigFix_new 5 0 false) ∧
      magnitude (BigFix_new 5 0 false) = 5 ∧
      magnitude (BigFix_new 5 0 false)
        ≠ magnitude (BigFix_new 5 0 false) + magnitude ⟨⟨.dynamic [0, 0, 0, 1] 2 2, false⟩⟩ := by
  refine ⟨by rfl, ?_, by rfl, by rfl, ?_, ?_⟩
  · rw [magnitude_dynamic_2_2]; norm_num
  · unfold BigFix_new; rw [magnitude_small]; norm_num
  · unfold BigFix_new; rw [magnitude_small, magnitude_dynamic_2_2]; norm_num

/-- C2. For 64-bit words `i1 f1 i2 f2`, `BigFix(i1, f1).add_eq_unsigned(BigFix(i2, f2))`
returns, and the magnitude of the result is `(i1 + f1/2^64) + (i2 + f2/2^64)`. When
the integer chunk overflows, the result is the Dynamic layout with two fraction
and two integer chunks, the top integer chunk `1`, and the wrapped sums below
it; otherwise it stays in the Small layout. -/
theorem add_eq_unsigned_constructed (i1 f1 i2 f2 : Nat) (hi1 : i1 < 2 ^ 64)
    (hf1 : f1 < 2 ^ 64) (hi2 : i2 < 2 ^ 64) (hf2 : f2 < 2 ^ 64) :
    ∃ a, add_eq_unsigned (BigFix_new i1 f1 false) (BigFix_new i2 f2 false) = some a ∧
      magnitude a = ((i1 : ℚ) + (f1 : ℚ) / 2 ^ 64) + ((i2 : ℚ) + (f2 : ℚ) / 2 ^ 64) ∧
      (2 ^ 64 ≤ i1 + i2 + (f1 + f2) / 2 ^ 64 →
        a = ⟨⟨.dynamic [0, (f1 + f2) % 2 ^ 64, (i1 + i2 + (f1 + f2) / 2 ^ 64) % 2 ^ 64, 1] 2 2,
          false⟩⟩) ∧
      (i1 + i2 + (f1 + f2) / 2 ^ 64 < 2 ^ 64 →
        a = BigFix_new (i1 + i2 + (f1 + f2) / 2 ^ 64) ((f1 + f2) % 2 ^ 64) false) := by
  have hc : (f1 + f2) / 2 ^ 64 ≤ 1 := by
    simp only [two_pow_64] at *
    omega
  have e0 : add_carry 0 0 0 = (0, 0) := by decide
  have e1 : add_carry f1 f2 0 = ((f1 + f2) % 2 ^ 64, (f1 + f2) / 2 ^ 64) :=
    add_carry_eq f1 f2 0 hf1 hf2 (by norm_num)
  have e2 := ripple_integer_eq i1 i2 _ hi1 hi2 hc
  have q1 : ((2 : ℚ) ^ 64) * (((f1 + f2) / 2 ^ 64 : ℕ) : ℚ) + (((f1 + f2) % 2 ^ 64 : ℕ) : ℚ)
      = (f1 : ℚ) + (f2 : ℚ) := by
    exact_mod_cast Nat.div_add_mod (f1 + f2) (2 ^ 64)
  have q2 : ((2 : ℚ) ^ 64) * (((i1 + i2 + (f1 + f2) / 2 ^ 64) / 2 ^ 64 : ℕ) : ℚ)
      + (((i1 + i2 + (f1 + f2) / 2 ^ 64) % 2 ^ 64 : ℕ) : ℚ)
      = (i1 : ℚ) + (i2 : ℚ) + (((f1 + f2) / 2 ^ 64 : ℕ) : ℚ) := by
    exact_mod_cast Nat.div_add_mod (i1 + i2 + (f1 + f2) / 2 ^ 64) (2 ^ 64)
  unfold BigFix_new
  rw [add_small_small, e0]
  simp only []
  rw [e1]
  simp only []
  rw [e2]
  simp only []
  by_cases hov : (i1 + i2 + (f1 + f2) / 2 ^ 64) / 2 ^ 64 = 0
  · have hlt : i1 + i2 + (f1 + f2) / 2 ^ 64 < 2 ^ 64 := by
      simp only [two_pow_64] at *
      omega
    rw [if_pos hov]
    refine ⟨_, rfl, ?_, fun h => absurd hlt (not_lt.mpr h), fun _ => ?_⟩
    · rw [hov] at q2
      rw [magnitude_small]
      push_cast at q1 q2 ⊢
      field_simp
      linarith [q1, q2]
    · rw [Nat.mod_eq_of_lt hlt]
  · have hge : 2 ^ 64 ≤ i1 + i2 + (f1 + f2) / 2 ^ 64 := by
      simp only [two_pow_64] at *
      omega
    have hone : (i1 + i2 + (f1 + f2) / 2 ^ 64) / 2 ^ 64 = 1 := by
      simp only [two_pow_64] at *
      omega
    have hne : ¬(i1 = 0 ∧ i2 = 0) := by
      simp only [two_pow_64] at *
      omega
    rw [if_neg hov, if_neg hne, hone]
    refine ⟨_, rfl, ?_, fun _ => rfl, fun h => absurd h (not_lt.mpr hge)⟩
    rw [hone] at q2
    rw [magnitude_dynamic_2_2]
    push_cast at q1 q2 ⊢
    field_simp
    linarith [q1, q2]

/-- C2, at `i1 = 2^64 - 1`, `f1 = 2^64 - 1`, `i2 = 1`, `f2 = 1`, where both the
fraction chunk and the integer chunk overflow. -/
theorem add_eq_unsigned_constructed_witness :
    ∃ a, add_eq_unsigned (BigFix_new (2 ^ 64 - 1) (2 ^ 64 - 1) false) (BigFix_new 1 1 false)
        = some a ∧
      magnitude a = (((2 ^ 64 - 1 : ℕ) : ℚ) + ((2 ^ 64 - 1 : ℕ) : ℚ) / 2 ^ 64)
        + (((1 : ℕ) : ℚ) + ((1 : ℕ) : ℚ) / 2 ^ 64) ∧
      (2 ^ 64 ≤ (2 ^ 64 - 1) + 1 + ((2 ^ 64 - 1) + 1) / 2 ^ 64 →
        a = ⟨⟨.dynamic [0, ((2 ^ 64 - 1) + 1) % 2 ^ 64,
          ((2 ^ 64 - 1) + 1 + ((2 ^ 64 - 1) + 1) / 2 ^ 64) % 2 ^ 64, 1] 2 2, false⟩⟩) ∧
      ((2 ^ 64 - 1) + 1 + ((2 ^ 64 - 1) + 1) / 2 ^ 64 < 2 ^ 64 →
        a = BigFix_new ((2 ^ 64 - 1) + 1 + ((2 ^ 64 - 1) + 1) / 2 ^ 64)
          (((2 ^ 64 - 1) + 1) % 2 ^ 64) false) :=
  add_eq_unsigned_constructed (2 ^ 64 - 1) (2 ^ 64 - 1) 1 1 (by norm_num) (by norm_num)
    (by norm_num) (by norm_num)

/-- C3. With `A = BigFix(3, 0xFFFFFFFFFFFFFFFF)` and `B = BigFix(3, 0x1111111111111111)`,
one call `A.add_eq_unsigned(B)` returns and `to_string(A)` is then
`7.111111111111111`. -/
theorem to_string_after_one_add :
    (add_eq_unsigned (BigFix_new 3 0xFFFFFFFFFFFFFFFF false)
        (BigFix_new 3 0x1111111111111111 false)).map to_string
      = some "7.111111111111111" := by
  rfl

/-- C4. In the loop of `playground/main.cpp`, after the `k`-th call
(`1 ≤ k ≤ 15`) `num1` is the Small value with integer chunk
`3 + 3k + (number of fraction carries so far)` and the wrapped fraction sum; its
magnitude is `(3 + (2^64-1)/2^64) + k * (3 + 0x1111111111111111/2^64)`; and after
the 15th call `to_string(num1)` is `31.fffffffffffffffe`. -/
theorem playground_accumulate (k : Nat) (h1 : 1 ≤ k) (h15 : k ≤ 15) :
    ∃ a, accumulate num2 k num1 = some a ∧
      a = BigFix_new (3 + 3 * k + (2 ^ 64 - 1 + k * 0x1111111111111111) / 2 ^ 64)
        ((2 ^ 64 - 1 + k * 0x1111111111111111) % 2 ^ 64) false ∧
      magnitude a = ((3 : ℚ) + (2 ^ 64 - 1) / 2 ^ 64)
        + (k : ℚ) * ((3 : ℚ) + 0x1111111111111111 / 2 ^ 64) ∧
      (accumulate num2 15 num1).map to_string = some "31.fffffffffffffffe" := by
  refine ⟨_, ?_, rfl, ?_, by rfl⟩
  · interval_cases k <;> rfl
  · have q : ((2 : ℚ) ^ 64) * (((2 ^ 64 - 1 + k * 0x1111111111111111) / 2 ^ 64 : ℕ) : ℚ)
        + (((2 ^ 64 - 1 + k * 0x1111111111111111) % 2 ^ 64 : ℕ) : ℚ)
        = (2 : ℚ) ^ 64 - 1 + (k : ℚ) * 0x1111111111111111 := by
      have := Nat.div_add_mod (2 ^ 64 - 1 + k * 0x1111111111111111) (2 ^ 64)
      have h2 : ((2 ^ 64 - 1 : ℕ) : ℚ) = (2 : ℚ) ^ 64 - 1 := by norm_num
      rw [← h2]
      exact_mod_cast this
    unfold BigFix_new
    rw [magnitude_small]
    push_cast at q ⊢
    field_simp
    linarith [q]

/-- C4, at `k = 15`. -/
theorem playground_accumulate_witness :
    ∃ a, accumulate num2 15 num1 = some a ∧
      a = BigFix_new (3 + 3 * 15 + (2 ^ 64 - 1 + 15 * 0x1111111111111111) / 2 ^ 64)
        ((2 ^ 64 - 1 + 15 * 0x1111111111111111) % 2 ^ 64) false ∧
      magnitude a = ((3 : ℚ) + (2 ^ 64 - 1) / 2 ^ 64)
        + ((15 : ℕ) : ℚ) * ((3 : ℚ) + 0x1111111111111111 / 2 ^ 64) ∧
      (accumulate num2 15 num1).map to_string = some "31.fffffffffffffffe" :=
  playground_accumulate 15 (by decide) (by decide)

/-- C5 (code defect). On the Dynamic value with two fraction chunks and two
integer chunks, both integer chunks `0xFFFFFFFFFFFFFFFF`, adding `BigFix(1, 0)`
leaves a carry after the last chunk. The store is regrown to `max_int + 1 = 2`
integer chunks, not to three, and the carry overwrites the top chunk: the result
is `[0, 0, 0, 1]` with two integer chunks, of magnitude `2^64` instead of `2^128`. -/
theorem carry_out_of_dynamic_keeps_two_integer_chunks :
    add_eq_unsigned ⟨⟨.dynamic [0, 0, 2 ^ 64 - 1, 2 ^ 64 - 1] 2 2, false⟩⟩ (BigFix_new 1 0 false)
        = some ⟨⟨.dynamic [0, 0, 0, 1] 2 2, false⟩⟩ ∧
      get_total_integer_chunk_count ⟨.dynamic [0, 0, 2 ^ 64 - 1, 2 ^ 64 - 1] 2 2, false⟩ = 2 ∧
      get_total_integer_chunk_count ⟨.dynamic [0, 0, 0, 1] 2 2, false⟩ = 2 ∧
      get_used_integer_chunk_count ⟨.dynamic [0, 0, 2 ^ 64 - 1, 2 ^ 64 - 1] 2 2, false⟩ = 0 ∧
      magnitude ⟨⟨.dynamic [0, 0, 2 ^ 64 - 1, 2 ^ 64 - 1] 2 2, false⟩⟩ = 2 ^ 128 - 1 ∧
      magnitude ⟨⟨.dynamic [0, 0, 0, 1] 2 2, false⟩⟩ = 2 ^ 64 := by
  refine ⟨by rfl, by rfl, by rfl, by rfl, ?_, ?_⟩
  · rw [magnitude_dynamic_2_2]; norm_num
  · rw [magnitude_dynamic_2_2]; norm_num

/-- C6 (code defect). With `s = BigFix(1, 0)` and `d` the Dynamic value of one
integer and three fraction chunks `[0, 0, 0, 7]` (magnitude `7`), the used
integer chunk count of `d` is reported as `0`, and `s.add_eq_unsigned(d)` leaves
magnitude `1` instead of `8`. With `s = BigFix(0, 0)` the grown store is too
short for the copy. In the other direction, `d = [0, 0, 1, 2^64-1]` plus
`BigFix(0, 2^64-1)` leaves magnitude `1` instead of `2^64`. -/
theorem add_small_and_wide_dynamic_loses_integer :
    get_used_integer_chunk_count ⟨.dynamic [0, 0, 0, 7] 1 3, false⟩ = 0 ∧
      add_eq_unsigned (BigFix_new 1 0 false) ⟨⟨.dynamic [0, 0, 0, 7] 1 3, false⟩⟩
        = some ⟨⟨.dynamic [0, 0, 0, 1] 1 3, false⟩⟩ ∧
      magnitude (BigFix_new 1 0 false) = 1 ∧
      magnitude ⟨⟨.dynamic [0, 0, 0, 7] 1 3, false⟩⟩ = 7 ∧
      magnitude ⟨⟨.dynamic [0, 0, 0, 1] 1 3, false⟩⟩ = 1 ∧
      add_eq_unsigned (BigFix_new 0 0 false) ⟨⟨.dynamic [0, 0, 0, 7] 1 3, false⟩⟩ = none ∧
      add_eq_unsigned ⟨⟨.dynamic [0, 0, 1, 2 ^ 64 - 1] 1 3, false⟩⟩
          (BigFix_new 0 (2 ^ 64 - 1) false)
        = some ⟨⟨.dynamic [0, 0, 0, 1] 1 3, false⟩⟩ ∧
      magnitude ⟨⟨.dynamic [0, 0, 1, 2 ^ 64 - 1] 1 3, false⟩⟩
        + magnitude (BigFix_new 0 (2 ^ 64 - 1) false) = 2 ^ 64 := by
  refine ⟨by rfl, by rfl, ?_, ?_, ?_, by rfl, by rfl, ?_⟩
  · unfold BigFix_new; rw [magnitude_small]; norm_num
  · norm_num [magnitude, scaled_magnitude, scaled_from, get_chunk_ptr,
      get_total_fractional_chunk_count]
  · norm_num [magnitude, scaled_magnitude, scaled_from, get_chunk_ptr,
      get_total_fractional_chunk_count]
  · norm_num [magnitude, scaled_magnitude, scaled_from, get_chunk_ptr,
      get_total_fractional_chunk_count, BigFix_new]

/-- C7. For every reachable value `v`, `v.add_eq_unsigned(BigFix(0, 0))` returns
and leaves `to_string(v)` unchanged. -/
theorem add_zero_keeps_to_string (v : BigFix) (h : Reachable v) :
    ∃ r, add_eq_unsigned v (BigFix_new 0 0 false) = some r ∧ to_string r = to_string v :=
  ⟨v, add_zero_of_shape v false (reachable_shape v h), rfl⟩

/-- C7, at the grown value `BigFix(2^64-1, 8, negative)` plus `BigFix(1, 0)`. -/
theorem add_zero_keeps_to_string_witness :
    Reachable ⟨⟨.dynamic [0, 8, 0, 1] 2 2, false⟩⟩ ∧
      ∃ r, add_eq_unsigned ⟨⟨.dynamic [0, 8, 0, 1] 2 2, false⟩⟩ (BigFix_new 0 0 false) = some r ∧
        to_string r = to_string ⟨⟨.dynamic [0, 8, 0, 1] 2 2, false⟩⟩ :=
  have hr : Reachable ⟨⟨.dynamic [0, 8, 0, 1] 2 2, false⟩⟩ :=
    Reachable.add (BigFix_new (2 ^ 64 - 1) 8 true) (BigFix_new 1 0 false) _
      (Reachable.construct _ _ _ (by norm_num) (by norm_num))
      (Reachable.construct _ _ _ (by norm_num) (by norm_num)) (by rfl)
  ⟨hr, add_zero_keeps_to_string _ hr⟩

/-- C8 (code defect). `ensure_capacity(2, 2)` on the negative Small value
`BigFix(5, 0, true)` meets the precondition (`2 ≥ used integer chunks`,
`2 ≥ total fraction chunks`) and returns a non-negative store: the string goes
from `-5` to `5`. `ensure_capacity(0, 3)` on `BigFix(0, 5)` meets it too and
copies three words to offset `1` of a three-word buffer. -/
theorem ensure_capacity_changes_to_string :
    get_used_integer_chunk_count (BigFix_new 5 0 true).m_chunks ≤ 2 ∧
      get_total_fractional_chunk_count (BigFix_new 5 0 true).m_chunks ≤ 2 ∧
      ensure_capacity (BigFix_new 5 0 true).m_chunks 2 2
        = some ⟨.dynamic [0, 0, 5, 0] 2 2, false⟩ ∧
      to_string (BigFix_new 5 0 true) = "-5" ∧
      to_string ⟨⟨.dynamic [0, 0, 5, 0] 2 2, false⟩⟩ = "5" ∧
      get_used_integer_chunk_count (BigFix_new 0 5 false).m_chunks ≤ 0 ∧
      get_total_fractional_chunk_count (BigFix_new 0 5 false).m_chunks ≤ 3 ∧
      ensure_capacity (BigFix_new 0 5 false).m_chunks 0 3 = none := by
  refine ⟨by decide, by decide, by rfl, by rfl, by rfl, by decide, by decide, by rfl⟩

/-- C9 (code defect). `BigFix(2^64-1, 8)` plus `BigFix(1, 0)` is the Dynamic value
`[0, 8, 0, 1]`; its copy records the used counts `0` and `1` and keeps the first
word only, so the copy formats to the empty string. -/
theorem copy_of_dynamic_changes_to_string :
    add_eq_unsigned (BigFix_new (2 ^ 64 - 1) 8 false) (BigFix_new 1 0 false)
        = some ⟨⟨.dynamic [0, 8, 0, 1] 2 2, false⟩⟩ ∧
      BigFix_copy ⟨⟨.dynamic [0, 8, 0, 1] 2 2, false⟩⟩ = some ⟨⟨.dynamic [0] 0 1, false⟩⟩ ∧
      to_string ⟨⟨.dynamic [0, 8, 0, 1] 2 2, false⟩⟩ = "10000000000000000.0000000000000008" ∧
      to_string ⟨⟨.dynamic [0] 0 1, false⟩⟩ = "" := by
  refine ⟨by rfl, by rfl, by rfl, by rfl⟩

/-- C10. After `w = std::move(v)`, `to_string(w)` is the string of `v` before the
move, and `v` is the freshly constructed zero: Small layout, non-negative, all
three chunks zero, formatting to `0`. -/
theorem move_neutrality (v : BigFix) :
    to_string (BigFix_move v).1 = to_string v ∧
      (BigFix_move v).1 = v ∧
      (BigFix_move v).2 = ⟨⟨.small_integer 0 0 0, false⟩⟩ ∧
      (BigFix_move v).2 = BigFix_new 0 0 false ∧
      to_string (BigFix_move v).2 = "0" := by
  have h1 : (BigFix_move v).1 = v := rfl
  have h2 : (BigFix_move v).2 = ⟨⟨.small_integer 0 0 0, false⟩⟩ := rfl
  refine ⟨by rw [h1], h1, h2, h2, ?_⟩
  rw [h2]
  rfl

/-- C11 (code defect). On the Small store with fraction chunks `[5, 7]` and integer
chunk `0`, `to_string` prints `0.0000000000000007`: the search for the last
non-zero fraction chunk stops at the most significant non-zero chunk, and the
non-zero chunk `5` below it is omitted. The store with fraction chunks `[0, 7]`
has a different magnitude and the same string. -/
theorem to_string_omits_lower_fraction_chunk :
    to_string ⟨⟨.small_integer 5 7 0, false⟩⟩ = "0.0000000000000007" ∧
      find_last_nonzero_frac [5, 7, 0] 2 = some 1 ∧
      to_string ⟨⟨.small_integer 0 7 0, false⟩⟩ = "0.0000000000000007" ∧
      magnitude ⟨⟨.small_integer 5 7 0, false⟩⟩ = 7 / 2 ^ 64 + 5 / 2 ^ 128 ∧
      magnitude ⟨⟨.small_integer 0 7 0, false⟩⟩ = 7 / 2 ^ 64 ∧
      magnitude ⟨⟨.small_integer 5 7 0, false⟩⟩ ≠ magnitude ⟨⟨.small_integer 0 7 0, false⟩⟩ := by
  refine ⟨by rfl, by rfl, by rfl, ?_, ?_, ?_⟩
  · rw [magnitude_small]; norm_num
  · rw [magnitude_small]; norm_num
  · rw [magnitude_small, magnitude_small]; norm_num

/-- C13 (counterexample). The request `(2^64 - 1, 3)` selects the Dynamic layout
and records the counts `(2^64 - 1, 3)`, but the array length
`(2^64 - 1) + 3` wraps in `std::size_t` to `2`: the buffer has two chunks, not
`integers + fractions` chunks. -/
theorem Chunks_counts_wrapped_buffer :
    get_state_type (Chunks_counts (2 ^ 64 - 1) 3) = State.DynamicSized ∧
      (Chunks_counts (2 ^ 64 - 1) 3).m_data = Buffer.dynamic [0, 0] (2 ^ 64 - 1) 3 ∧
      (get_chunk_ptr (Chunks_counts (2 ^ 64 - 1) 3)).length = 2 ∧
      ¬((get_chunk_ptr (Chunks_counts (2 ^ 64 - 1) 3)).length = (2 ^ 64 - 1) + 3) := by
  refine ⟨by rfl, by rfl, by rfl, ?_⟩
  have h : (get_chunk_ptr (Chunks_counts (2 ^ 64 - 1) 3)).length = 2 := by rfl
  rw [h]
  norm_num

/-- C13 (amended). The store built by `Chunks(integers, fractions)` is Small
exactly when `integers < 2` and `fractions < 3`; otherwise Medium exactly when
`integers < 3` and `fractions < 2`; otherwise Dynamic with the recorded counts
`(integers, fractions)` and a zero buffer of `(integers + fractions) mod 2^64`
chunks, which is `integers + fractions` chunks whenever that sum is below
`2^64`. In every case it is non-negative, every chunk is zero, and its total
counts cover the request. -/
theorem Chunks_counts_layout (integers fractions : Nat) :
    (get_state_type (Chunks_counts integers fractions) = State.SmallInteger
        ↔ integers < 2 ∧ fractions < 3) ∧
      (get_state_type (Chunks_counts integers fractions) = State.BigInteger
        ↔ ¬(integers < 2 ∧ fractions < 3) ∧ (integers < 3 ∧ fractions < 2)) ∧
      (get_state_type (Chunks_counts integers fractions) = State.DynamicSized
        ↔ ¬(integers < 2 ∧ fractions < 3) ∧ ¬(integers < 3 ∧ fractions < 2)) ∧
      (get_state_type (Chunks_counts integers fractions) = State.DynamicSized →
        (Chunks_counts integers fractions).m_data
            = Buffer.dynamic (List.replicate ((integers + fractions) % 2 ^ 64) 0)
              integers fractions ∧
          (get_chunk_ptr (Chunks_counts integers fractions)).length
            = (integers + fractions) % 2 ^ 64) ∧
      (get_state_type (Chunks_counts integers fractions) = State.DynamicSized →
        integers + fractions < 2 ^ 64 →
        (Chunks_counts integers fractions).m_data
            = Buffer.dynamic (List.replicate (integers + fractions) 0) integers fractions ∧
          (get_chunk_ptr (Chunks_counts integers fractions)).length = integers + fractions) ∧
      is_negative (Chunks_counts integers fractions) = false ∧
      (∀ w ∈ get_chunk_ptr (Chunks_counts integers fractions), w = 0) ∧
      integers ≤ get_total_integer_chunk_count (Chunks_counts integers fractions) ∧
      fractions ≤ get_total_fractional_chunk_count (Chunks_counts integers fractions) := by
  unfold Chunks_counts
  by_cases hs : integers < 2 ∧ fractions < 3
  · simp [hs, get_state_type, is_negative, get_chunk_ptr, get_total_integer_chunk_count,
      get_total_fractional_chunk_count]
    omega
  · by_cases hm : integers < 3 ∧ fractions < 2
    · simp [hs, hm, get_state_type, is_negative, get_chunk_ptr, get_total_integer_chunk_count,
        get_total_fractional_chunk_count]
      omega
    · simp only [hs, hm, if_false, get_state_type, is_negative, get_chunk_ptr,
        get_total_integer_chunk_count, get_total_fractional_chunk_count, List.length_replicate,
        not_false_eq_true, and_self, true_and, true_iff, le_refl, and_true, forall_const,
        reduceCtorEq, false_iff, not_true_eq_false, false_and, and_false]
      refine ⟨fun h => ?_, fun w hw => (List.mem_replicate.mp hw).2⟩
      rw [Nat.mod_eq_of_lt h]
      exact ⟨rfl, rfl⟩

/-- C13 (amended), at the request `(2, 2)`, which selects the Dynamic layout. -/
theorem Chunks_counts_layout_witness :
    (Chunks_counts 2 2).m_data = Buffer.dynamic (List.replicate (2 + 2) 0) 2 2 ∧
      (get_chunk_ptr (Chunks_counts 2 2)).length = 2 + 2 :=
  (Chunks_counts_layout 2 2).2.2.2.2.1 (by decide) (by norm_num)

/-- C14 (code defect). On the Dynamic store with two integer and two fraction
chunks and buffer `[0, 0, 0, 1]`, the integer chunk at position `2` (buffer index
`3`) is non-zero, and `get_used_integer_chunk_count` returns `0`: the loop
condition `i >= m_fraction_chunk_count` is false at its first test. -/
theorem used_integer_count_of_dynamic_is_zero :
    get_used_integer_chunk_count ⟨.dynamic [0, 0, 0, 1] 2 2, false⟩ = 0 ∧
      (get_chunk_ptr ⟨.dynamic [0, 0, 0, 1] 2 2, false⟩)[2 + 1]? = some 1 ∧
      get_total_integer_chunk_count ⟨.dynamic [0, 0, 0, 1] 2 2, false⟩ = 2 ∧
      (∀ (b : List Nat) (neg : Bool), get_used_integer_chunk_count ⟨.dynamic b 2 2, neg⟩ = 0) := by
  refine ⟨by rfl, by rfl, by rfl, ?_⟩
  intro b neg
  simp [get_used_integer_chunk_count, used_integer_scan]

/-- C15 (code defect). On `BigFix(0, 5)`, whose fraction chunks are `[0, 5]`, the
closed form of the Small layout returns `2`, while the linear-scan rule (first
non-zero chunk at index `1`, count to the end of the region) gives `1`. On the
fraction chunks `[7, 0]` the closed form returns `1` and the rule gives `2`. -/
theorem used_fraction_closed_form_disagrees :
    get_used_fraction_chunk_count (BigFix_new 0 5 false).m_chunks = some 2 ∧
      used_fraction_linear_rule (BigFix_new 0 5 false).m_chunks = some 1 ∧
      fraction_region (BigFix_new 0 5 false).m_chunks = [0, 5] ∧
      get_used_fraction_chunk_count ⟨.small_integer 7 0 0, false⟩ = some 1 ∧
      used_fraction_linear_rule ⟨.small_integer 7 0 0, false⟩ = some 2 ∧
      get_used_fraction_chunk_count ⟨.dynamic [0, 5, 0] 1 2, false⟩ = some 1 := by
  refine ⟨by rfl, by rfl, by rfl, by rfl, by rfl, by rfl⟩

/-- C16 (code defect). With `self = BigFix(2^64-1, 0, negative = true)` and
`other = BigFix(1, 0)`, the call grows the store and returns a non-negative
value: the string goes from `-ffffffffffffffff` to `10000000000000000`. -/
theorem add_eq_unsigned_growth_drops_sign :
    is_negative (BigFix_new (2 ^ 64 - 1) 0 true).m_chunks = true ∧
      add_eq_unsigned (BigFix_new (2 ^ 64 - 1) 0 true) (BigFix_new 1 0 false)
        = some ⟨⟨.dynamic [0, 0, 0, 1] 2 2, false⟩⟩ ∧
      is_negative (⟨.dynamic [0, 0, 0, 1] 2 2, false⟩ : Chunks) = false ∧
      to_string (BigFix_new (2 ^ 64 - 1) 0 true) = "-ffffffffffffffff" ∧
      to_string ⟨⟨.dynamic [0, 0, 0, 1] 2 2, false⟩⟩ = "10000000000000000" := by
  refine ⟨by rfl, by rfl, by rfl, by rfl, by rfl⟩

/-- C19. For 64-bit words `left`, `right` and a carry bit `carry_in`, `add_carry`
returns `(left + right + carry_in) mod 2^64` with the carry
`(left + right + carry_in) / 2^64`, which is `0` or `1`, so that
`left + right + carry_in = result + 2^64 * carry_out`. The carry is passed in by
value, so the same holds when the caller stores the new carry over the old. -/
theorem add_carry_spec (left right carry_in : Nat) (hl : left < 2 ^ 64)
    (hr : right < 2 ^ 64) (hc : carry_in ≤ 1) :
    (add_carry left right carry_in).1 = (left + right + carry_in) % 2 ^ 64 ∧
      (add_carry left right carry_in).2 = (left + right + carry_in) / 2 ^ 64 ∧
      (add_carry left right carry_in).2 ≤ 1 ∧
      left + right + carry_in
        = (add_carry left right carry_in).1 + 2 ^ 64 * (add_carry left right carry_in).2 := by
  rw [add_carry_eq left right carry_in hl hr hc]
  refine ⟨rfl, rfl, ?_, ?_⟩
  · simp only [two_pow_64] at *
    omega
  · simp only [two_pow_64] at *
    omega

/-- C19, at `left = right = 2^64 - 1` and `carry_in = 1`. -/
theorem add_carry_spec_witness :
    (add_carry (2 ^ 64 - 1) (2 ^ 64 - 1) 1).1 = ((2 ^ 64 - 1) + (2 ^ 64 - 1) + 1) % 2 ^ 64 ∧
      (add_carry (2 ^ 64 - 1) (2 ^ 64 - 1) 1).2 = ((2 ^ 64 - 1) + (2 ^ 64 - 1) + 1) / 2 ^ 64 ∧
      (add_carry (2 ^ 64 - 1) (2 ^ 64 - 1) 1).2 ≤ 1 ∧
      (2 ^ 64 - 1) + (2 ^ 64 - 1) + 1
        = (add_carry (2 ^ 64 - 1) (2 ^ 64 - 1) 1).1
          + 2 ^ 64 * (add_carry (2 ^ 64 - 1) (2 ^ 64 - 1) 1).2 :=
  add_carry_spec (2 ^ 64 - 1) (2 ^ 64 - 1) 1 (by norm_num) (by norm_num) (by norm_num)

/-- C20 (code defect). The call `sub_borrow(0, 1, 0, &b)` with `b = 0` returns
`2^64 - 1` and leaves `b = 0`, although `0 < 1 + 0`; on every input the word
behind `borrow_out` keeps the value it had before the call. -/
theorem sub_borrow_leaves_borrow_out :
    sub_borrow 0 1 0 0 = (2 ^ 64 - 1, 0) ∧
      (∀ left right borrow_in borrow_out : Nat,
        (sub_borrow left right borrow_in borrow_out).2 = borrow_out) := by
  refine ⟨by rfl, fun _ _ _ _ => rfl⟩

/-- C12 (code defect). On `BigFix(0, 5)` (Small layout, two fraction chunks), the
call `ensure_capacity(0, 3)` meets `f >= total fraction count`, builds a Dynamic
store of `0 + 3` chunks and copies the three old words to offset `1`: the third
word goes to index `3`, outside the buffer, so the call has no defined result. -/
theorem ensure_capacity_growth_out_of_bounds :
    get_total_fractional_chunk_count (BigFix_new 0 5 false).m_chunks ≤ 3 ∧
      ¬capacity_covers (BigFix_new 0 5 false).m_chunks 0 3 ∧
      Chunks_counts 0 3 = ⟨.dynamic [0, 0, 0] 0 3, false⟩ ∧
      memcpy_chunks (get_chunk_ptr (BigFix_new 0 5 false).m_chunks) (3 - 2) 2 0 (Chunks_counts 0 3)
        = some ⟨.dynamic [0, 0, 5] 0 3, false⟩ ∧
      write_chunk ⟨.dynamic [0, 0, 5] 0 3, false⟩ (2 + (3 - 2)) 0 = none ∧
      ensure_capacity (BigFix_new 0 5 false).m_chunks 0 3 = none := by
  refine ⟨by decide, ?_, by rfl, by rfl, by rfl, by rfl⟩
  simp [capacity_covers, BigFix_new]

/-- C17 (code defect). With `self` in the Medium layout, low integer chunk `5`,
and `other = BigFix(1, 0)`, the call requests `ensure_capacity(1, 2)`; the new
store is Small (three words) and the copy of `total_frac + total_int = 3` words
to offset `2 - 1 = 1` ends at index `3`, outside the store. The Dynamic value
`[0, 1, 2^64-1, 2^64-1]` plus `BigFix(0, 2^64-1)` copies four words into a Small
store in the same way. -/
theorem add_eq_unsigned_copy_out_of_bounds :
    get_used_integer_chunk_count ⟨.big_integer 0 5 0, false⟩ = 1 ∧
      get_used_integer_chunk_count (BigFix_new 1 0 false).m_chunks = 1 ∧
      Chunks_counts 1 2 = ⟨.small_integer 0 0 0, false⟩ ∧
      (get_chunk_ptr (Chunks_counts 1 2)).length
        < (2 - get_total_fractional_chunk_count ⟨.big_integer 0 5 0, false⟩)
          + get_total_fractional_chunk_count ⟨.big_integer 0 5 0, false⟩
          + get_total_integer_chunk_count ⟨.big_integer 0 5 0, false⟩ ∧
      write_chunk (Chunks_counts 1 2) (2 + (2 - 1)) 0 = none ∧
      ensure_capacity ⟨.big_integer 0 5 0, false⟩ 1 2 = none ∧
      add_eq_unsigned ⟨⟨.big_integer 0 5 0, false⟩⟩ (BigFix_new 1 0 false) = none ∧
      increase_size_to ⟨.dynamic [0, 0, 0, 0] 2 2, false⟩ 1 2 = none ∧
      add_eq_unsigned ⟨⟨.dynamic [0, 1, 2 ^ 64 - 1, 2 ^ 64 - 1] 2 2, false⟩⟩
        (BigFix_new 0 (2 ^ 64 - 1) false) = none := by
  refine ⟨by rfl, by rfl, by rfl, by decide, by rfl, by rfl, by rfl, by rfl, by rfl⟩

/-- C18. Every reachable value is in the Small layout, or in the Dynamic layout
with exactly two fraction chunks and two integer chunks in a four-word buffer;
it is never in the Medium layout, and its total integer chunk count is at most
two. -/
theorem reachable_layouts (v : BigFix) (h : Reachable v) :
    (get_state_type v.m_chunks = State.SmallInteger ∨
        (get_state_type v.m_chunks = State.DynamicSized ∧
          get_total_fractional_chunk_count v.m_chunks = 2 ∧
          get_total_integer_chunk_count v.m_chunks = 2 ∧
          (get_chunk_ptr v.m_chunks).length = 4)) ∧
      get_state_type v.m_chunks ≠ State.BigInteger ∧
      get_total_integer_chunk_count v.m_chunks ≤ 2 := by
  rcases reachable_shape v h with ⟨f0, f1, i, neg, _, _, _, rfl⟩ | ⟨f0, f1, i0, i1, neg, _, _, _, _, rfl⟩
  · simp [get_state_type, get_total_integer_chunk_count]
  · simp [get_state_type, get_total_integer_chunk_count, get_total_fractional_chunk_count,
      get_chunk_ptr]

/-- C18, at the value `BigFix(2^64-1, 0)` plus `BigFix(1, 0)`, grown to `2^64`. -/
theorem reachable_layouts_witness :
    Reachable ⟨⟨.dynamic [0, 0, 0, 1] 2 2, false⟩⟩ ∧
      get_state_type (⟨.dynamic [0, 0, 0, 1] 2 2, false⟩ : Chunks) ≠ State.BigInteger ∧
      get_total_integer_chunk_count (⟨.dynamic [0, 0, 0, 1] 2 2, false⟩ : Chunks) ≤ 2 :=
  have hr : Reachable ⟨⟨.dynamic [0, 0, 0, 1] 2 2, false⟩⟩ :=
    Reachable.add (BigFix_new (2 ^ 64 - 1) 0 false) (BigFix_new 1 0 false) _
      (Reachable.construct _ _ _ (by norm_num) (by norm_num))
      (Reachable.construct _ _ _ (by norm_num) (by norm_num)) (by rfl)
  ⟨hr, (reachable_layouts _ hr).2⟩

end BigFixModel
